import Mathlib

/-!
Verification of the in-memory session/task store of the TODO-list MCP server
(src/todo_server.ts).  The handlers are embedded as pure functions that pass
the session store explicitly; a thrown McpError is an `Except.error` result
that leaves the store untouched (every throw in the source happens before any
mutation).  JavaScript number behaviour that the handlers rely on — `parseInt`
prefix parsing, `Math.max` propagating NaN, `<` being false on NaN — is
modelled by `JsNum` (an exact integer or NaN; the double-precision rounding of
integers at magnitudes of 2^53 and above is not modelled).
-/

deriving instance DecidableEq for Except

namespace Todo

inductive Status
  | pending
  | completed
deriving DecidableEq

structure Task where
  id : String
  description : String
  status : Status
deriving DecidableEq

/-- A JavaScript number as used by the server: an integer value or NaN. -/
inductive JsNum
  | nan
  | num (v : Int)
deriving DecidableEq

/-- Adding 1, as in `parseInt(task.id, 10) + 1`: NaN propagates. -/
def JsNum.add1 : JsNum → JsNum
  | nan => nan
  | num v => num (v + 1)

/-- `Math.max`: returns NaN if either argument is NaN. -/
def jsMax : JsNum → JsNum → JsNum
  | JsNum.nan, _ => JsNum.nan
  | JsNum.num _, JsNum.nan => JsNum.nan
  | JsNum.num a, JsNum.num b => JsNum.num (max a b)

/-- The JavaScript `<` comparison: any comparison with NaN is false. -/
def jsLt : JsNum → JsNum → Bool
  | JsNum.num a, JsNum.num b => decide (a < b)
  | _, _ => false

structure Session where
  session_id : String
  tasks : List Task
  next_task_id_counter : JsNum
deriving DecidableEq

/-- Error codes used by the server (every throw uses ErrorCode.InvalidRequest). -/
inductive ErrorCode
  | invalidRequest
deriving DecidableEq

structure McpError where
  code : ErrorCode
  message : String
deriving DecidableEq

/-- The in-memory `Map<string, Session>`, embedded as an insertion-ordered
association list with unique keys. -/
abbrev Store := List (String × Session)

def Store.get : Store → String → Option Session
  | [], _ => none
  | (k, v) :: rest, sid => if k = sid then some v else Store.get rest sid

/-- `Map.prototype.set`: replace in place if the key exists, append otherwise. -/
def Store.set : Store → String → Session → Store
  | [], sid, s => [(sid, s)]
  | (k, v) :: rest, sid, s =>
      if k = sid then (k, s) :: rest else (k, v) :: Store.set rest sid s

/-- Characters skipped by `parseInt` before parsing (JS WhiteSpace and
LineTerminator code points). -/
def isJsWhitespace (c : Char) : Bool :=
  c == ' ' || c == '\t' || c == '\n' || c == '\r' ||
  c.toNat == 11 || c.toNat == 12 || c.toNat == 160 ||
  c.toNat == 0x2028 || c.toNat == 0x2029 || c.toNat == 0xFEFF

/-- Value of a character as a digit in bases up to 36 (as in `parseInt`). -/
def digitVal (c : Char) : Option Nat :=
  if '0' ≤ c ∧ c ≤ '9' then some (c.toNat - '0'.toNat)
  else if 'a' ≤ c ∧ c ≤ 'z' then some (c.toNat - 'a'.toNat + 10)
  else if 'A' ≤ c ∧ c ≤ 'Z' then some (c.toNat - 'A'.toNat + 10)
  else none

/-- Longest digit run at the front of the character list, folded into a
number; `none` when not a single digit was consumed (`parseInt` yields NaN). -/
def parseDigits (radix : Nat) : Option Nat → List Char → Option Nat
  | acc, [] => acc
  | acc, c :: cs =>
      match digitVal c with
      | some d =>
          if d < radix then parseDigits radix (some (acc.getD 0 * radix + d)) cs else acc
      | none => acc

/-- Optional leading sign, as consumed by `parseInt`. -/
def splitSign : List Char → Int × List Char
  | [] => (1, [])
  | c :: rest =>
      if c = '-' then (-1, rest)
      else if c = '+' then (1, rest)
      else (1, c :: rest)

/-- A leading `0x`/`0X`, stripped by `parseInt` when no radix is given. -/
def hexStrip : List Char → Option (List Char)
  | '0' :: c :: rest => if c = 'x' ∨ c = 'X' then some rest else none
  | _ => none

/-- ECMAScript `parseInt`: skip whitespace, take an optional sign, optionally
(`hexAllowed`, the no-radix-argument call) switch to base 16 on a `0x` prefix,
then parse the longest digit prefix; NaN when no digit was consumed. -/
def parseIntCore (hexAllowed : Bool) (radix : Nat) (s : String) : JsNum :=
  let cs0 := s.data.dropWhile isJsWhitespace
  let sgn := (splitSign cs0).1
  let cs1 := (splitSign cs0).2
  let rd : Nat × List Char :=
    if hexAllowed then
      match hexStrip cs1 with
      | some rest => (16, rest)
      | none => (radix, cs1)
    else (radix, cs1)
  match parseDigits rd.1 none rd.2 with
  | none => JsNum.nan
  | some m => JsNum.num (sgn * (m : Int))

/-- `parseInt(s, 10)` as called in updateTasks (lines 256 and 263). -/
def parseInt10 (s : String) : JsNum := parseIntCore false 10 s

/-- `parseInt(s)` with no radix argument, as called in getNextPendingTask
(line 222). -/
def parseIntAuto (s : String) : JsNum := parseIntCore true 10 s

def sessionNotFound (sid : String) : McpError :=
  { code := ErrorCode.invalidRequest, message := "Session not found: " ++ sid }

def taskNotFound (tid : String) : McpError :=
  { code := ErrorCode.invalidRequest, message := "Task not found: " ++ tid }

/-- The initial-task loop of createSession: ids minted from a counter
(stringified), each task pending. -/
def mkInitialTasks : Nat → List String → List Task
  | _, [] => []
  | counter, d :: rest =>
      { id := Nat.repr counter, description := d, status := Status.pending }
        :: mkInitialTasks (counter + 1) rest

/-- createSession (src/todo_server.ts lines 118-155).  The session id produced
by `crypto.randomUUID()` is taken as the parameter `newSessionId`. -/
def createSession (newSessionId : String) (initial_tasks : List String)
    (store : Store) : Except McpError (String × List Task) × Store :=
  if initial_tasks.length = 0 then
    (Except.error { code := ErrorCode.invalidRequest,
                    message := "initial_tasks must not be empty" }, store)
  else
    let createdTasks := mkInitialTasks 1 initial_tasks
    let session : Session :=
      { session_id := newSessionId, tasks := createdTasks,
        next_task_id_counter := JsNum.num ((initial_tasks.length : Int) + 1) }
    (Except.ok (newSessionId, createdTasks), store.set newSessionId session)

/-- getTasks (src/todo_server.ts lines 158-170). -/
def getTasks (session_id : String) (store : Store) :
    Except McpError (List Task) × Store :=
  match store.get session_id with
  | none => (Except.error (sessionNotFound session_id), store)
  | some session => (Except.ok session.tasks, store)

/-- The in-place mutation `task.status = input.status` of the first task whose
id matches (the task returned by `Array.prototype.find`). -/
def setStatusFirst (task_id : String) (status : Status) : List Task → List Task
  | [] => []
  | t :: rest =>
      if t.id = task_id then { t with status := status } :: rest
      else t :: setStatusFirst task_id status rest

/-- updateTaskStatus (src/todo_server.ts lines 173-198). -/
def updateTaskStatus (session_id task_id : String) (status : Status)
    (store : Store) : Except McpError (Task × List Task) × Store :=
  match store.get session_id with
  | none => (Except.error (sessionNotFound session_id), store)
  | some session =>
      match session.tasks.find? (fun t => t.id == task_id) with
      | none => (Except.error (taskNotFound task_id), store)
      | some t =>
          let newTasks := setStatusFirst task_id status session.tasks
          (Except.ok ({ t with status := status }, newTasks),
           store.set session_id { session with tasks := newTasks })

/-- Replacement at the index found by `findIndex` (the first task with a
matching id); the list is unchanged when no id matches. -/
def replaceFirst (task : Task) : List Task → List Task
  | [] => []
  | t :: rest => if t.id = task.id then task :: rest else t :: replaceFirst task rest

/-- One iteration of the updateTasks loop (src/todo_server.ts lines 250-261):
replace the first task with a matching id wholesale, or push the entry and
advance the counter to `Math.max(counter, parseInt(task.id, 10) + 1)`. -/
def upsertOne (session : Session) (task : Task) : Session :=
  if session.tasks.any (fun t => t.id == task.id) then
    { session with tasks := replaceFirst task session.tasks }
  else
    { session with
        tasks := session.tasks ++ [task],
        next_task_id_counter :=
          jsMax session.next_task_id_counter ((parseInt10 task.id).add1) }

/-- One comparator call of the sort at line 263:
`parseInt(a.id, 10) - parseInt(b.id, 10)`, interpreted as "a need not come
after b" (comparator value not greater than zero).  When an id does not parse
the comparator returns NaN, which the engine treats as zero (neither less nor
greater); ECMAScript leaves the resulting order implementation-defined. -/
def taskLe (a b : Task) : Bool :=
  match parseInt10 a.id, parseInt10 b.id with
  | JsNum.num x, JsNum.num y => decide (x ≤ y)
  | _, _ => true

def sortInsert (t : Task) : List Task → List Task
  | [] => [t]
  | x :: rest => if taskLe t x then t :: x :: rest else x :: sortInsert t rest

/-- The stable sort `session.tasks.sort((a, b) => parseInt(a.id, 10) -
parseInt(b.id, 10))`, embedded as a stable insertion sort over `taskLe`. -/
def jsSortTasks : List Task → List Task
  | [] => []
  | t :: rest => sortInsert t (jsSortTasks rest)

/-- updateTasks (src/todo_server.ts lines 241-268). -/
def updateTasks (session_id : String) (input : List Task) (store : Store) :
    Except McpError (List Task) × Store :=
  match store.get session_id with
  | none => (Except.error (sessionNotFound session_id), store)
  | some session =>
      let updated := input.foldl upsertOne session
      let sorted := jsSortTasks updated.tasks
      (Except.ok sorted, store.set session_id { updated with tasks := sorted })

/-- The reduce of getNextPendingTask (line 221):
`pendingTasks.reduce((prev, current) => parseInt(prev.id) <
parseInt(current.id) ? prev : current)`; `reduce` with no seed starts from the
first element and folds leftwards. -/
def nextPendingReduce (p : Task) (rest : List Task) : Task :=
  rest.foldl
    (fun prev current =>
      if jsLt (parseIntAuto prev.id) (parseIntAuto current.id)
      then prev else current) p

/-- getNextPendingTask (src/todo_server.ts lines 201-228): filter the pending
tasks; null when there are none, otherwise the reduce above. -/
def getNextPendingTask (session_id : String) (store : Store) :
    Except McpError (Option Task) × Store :=
  match store.get session_id with
  | none => (Except.error (sessionNotFound session_id), store)
  | some session =>
      match session.tasks.filter (fun t => t.status == Status.pending) with
      | [] => (Except.ok none, store)
      | p :: rest => (Except.ok (some (nextPendingReduce p rest)), store)

/-- `String(n)` for the counter value, used only by the modelled addTask. -/
def jsNumToString : JsNum → String
  | JsNum.nan => "NaN"
  | JsNum.num v => toString v

/-- Modelled from the spec: an `add_task(session_id, description)` operation is
declared in the repository design document and in the spec (mint the next id
from `next_task_id_counter`, stringified; increment the counter; append a task
with status pending; return it; NotFoundError when the session is missing),
but no implementation of it exists under src/. -/
def addTask (session_id : String) (description : String) (store : Store) :
    Except McpError Task × Store :=
  match store.get session_id with
  | none => (Except.error (sessionNotFound session_id), store)
  | some session =>
      let newTask : Task :=
        { id := jsNumToString session.next_task_id_counter,
          description := description, status := Status.pending }
      (Except.ok newTask,
       store.set session_id
         { session with
             tasks := session.tasks ++ [newTask],
             next_task_id_counter := session.next_task_id_counter.add1 })

/-- An id that `parseInt(·, 10)` accepts (does not yield NaN). -/
def idParses (t : Task) : Prop := parseInt10 t.id ≠ JsNum.nan

instance (t : Task) : Decidable (idParses t) := by
  unfold idParses; infer_instance

/-- Numeric key of a task id under `parseInt(·, 10)` (0 for NaN; only used
under an `idParses` hypothesis). -/
def keyed (t : Task) : Int :=
  match parseInt10 t.id with
  | JsNum.num v => v
  | JsNum.nan => 0

/-- Numeric key under the no-radix `parseInt` of getNextPendingTask. -/
def keyedAuto (t : Task) : Int :=
  match parseIntAuto t.id with
  | JsNum.num v => v
  | JsNum.nan => 0

/-- The last entry of the batch input carrying a given id — the entry whose
values survive in-order upsert processing. -/
def lastById (tid : String) : List Task → Option Task
  | [] => none
  | e :: rest =>
      match lastById tid rest with
      | some t => some t
      | none => if e.id = tid then some e else none

/-! ### Store lemmas -/

theorem Store.get_set_self (st : Store) (k : String) (s : Session) :
    (st.set k s).get k = some s := by
  induction st with
  | nil => simp [Store.set, Store.get]
  | cons kv rest ih =>
      obtain ⟨k0, v0⟩ := kv
      by_cases h : k0 = k
      · subst h; simp [Store.set, Store.get]
      · simp [Store.set, Store.get, h, ih]

theorem Store.set_set (st : Store) (k : String) (a b : Session) :
    (st.set k a).set k b = st.set k b := by
  induction st with
  | nil => simp [Store.set]
  | cons kv rest ih =>
      obtain ⟨k0, v0⟩ := kv
      by_cases h : k0 = k
      · subst h; simp [Store.set]
      · simp [Store.set, h, ih]

/-! ### Claims C10 and C5 -/

/-- C10: get_tasks and get_next_pending_task are pure queries — for every
input, whether they succeed or fail with NotFoundError, the entire store
afterwards is identical to the store before the call. -/
theorem claim_C10_queries_pure (sid : String) (store : Store) :
    (getTasks sid store).2 = store ∧ (getNextPendingTask sid store).2 = store := by
  constructor
  · unfold getTasks
    cases store.get sid <;> rfl
  · unfold getNextPendingTask
    split
    · rfl
    · split <;> rfl

/-- C5: every operation that takes a session_id (get_tasks,
update_task_status, update_tasks, get_next_pending_task) fails with
NotFoundError on an unknown session id and leaves the store — every session,
task list and counter — exactly as it was. -/
theorem claim_C5_unknown_session_not_found
    (sid tid : String) (st : Status) (input : List Task) (store : Store)
    (hs : store.get sid = none) :
    getTasks sid store = (Except.error (sessionNotFound sid), store) ∧
    updateTaskStatus sid tid st store = (Except.error (sessionNotFound sid), store) ∧
    updateTasks sid input store = (Except.error (sessionNotFound sid), store) ∧
    getNextPendingTask sid store = (Except.error (sessionNotFound sid), store) := by
  refine ⟨?_, ?_, ?_, ?_⟩ <;>
    simp [getTasks, updateTaskStatus, updateTasks, getNextPendingTask, hs]

/-- Witness for C5 at a concrete input: the empty store knows no session
"missing", and all four operations fail with NotFoundError leaving the store
empty. -/
theorem claim_C5_witness :
    Store.get ([] : Store) "missing" = none ∧
    (getTasks "missing" ([] : Store) =
        (Except.error (sessionNotFound "missing"), ([] : Store)) ∧
     updateTaskStatus "missing" "1" Status.pending ([] : Store) =
        (Except.error (sessionNotFound "missing"), ([] : Store)) ∧
     updateTasks "missing" [] ([] : Store) =
        (Except.error (sessionNotFound "missing"), ([] : Store)) ∧
     getNextPendingTask "missing" ([] : Store) =
        (Except.error (sessionNotFound "missing"), ([] : Store))) :=
  ⟨rfl, claim_C5_unknown_session_not_found "missing" "1" Status.pending [] [] rfl⟩

/-! ### createSession lemmas and claim C4 -/

theorem mkInitialTasks_map_id (k : Nat) (descs : List String) :
    (mkInitialTasks k descs).map Task.id
      = (List.range descs.length).map (fun i => Nat.repr (k + i)) := by
  induction descs generalizing k with
  | nil => simp [mkInitialTasks]
  | cons d rest ih =>
      have hfun : (fun i => Nat.repr (k + Nat.succ i)) = fun i => Nat.repr (k + 1 + i) := by
        funext i
        congr 1
        omega
      simp [mkInitialTasks, List.range_succ_eq_map, ih (k + 1), List.map_map,
            Function.comp_def, hfun]

theorem mkInitialTasks_map_description (k : Nat) (descs : List String) :
    (mkInitialTasks k descs).map Task.description = descs := by
  induction descs generalizing k with
  | nil => rfl
  | cons d rest ih => simp [mkInitialTasks, ih (k + 1)]

theorem mkInitialTasks_pending (k : Nat) (descs : List String) :
    ∀ t ∈ mkInitialTasks k descs, t.status = Status.pending := by
  induction descs generalizing k with
  | nil => intro t ht; cases ht
  | cons d rest ih =>
      intro t ht
      rcases List.mem_cons.mp ht with h | h
      · subst h
        rfl
      · exact ih (k + 1) t h

/-- C4: createSession fails with ValidationError exactly when the list of
initial descriptions is empty; for a non-empty list of n descriptions it
returns the fresh session id and n tasks with ids "1" through "n" in input
order, all pending, and stores the session with next_task_id_counter n + 1. -/
theorem claim_C4_create_session (newId : String) (descs : List String) (store : Store) :
    (descs = [] →
      createSession newId descs store =
        (Except.error { code := ErrorCode.invalidRequest,
                        message := "initial_tasks must not be empty" }, store)) ∧
    (descs ≠ [] →
      createSession newId descs store =
        (Except.ok (newId, mkInitialTasks 1 descs),
         store.set newId
           { session_id := newId, tasks := mkInitialTasks 1 descs,
             next_task_id_counter := JsNum.num ((descs.length : Int) + 1) }) ∧
      (mkInitialTasks 1 descs).map Task.id
        = (List.range descs.length).map (fun i => Nat.repr (i + 1)) ∧
      (mkInitialTasks 1 descs).map Task.description = descs ∧
      ∀ t ∈ mkInitialTasks 1 descs, t.status = Status.pending) := by
  constructor
  · intro h
    subst h
    rfl
  · intro h
    have hlen : ¬descs.length = 0 := by
      simpa [List.length_eq_zero] using h
    refine ⟨?_, ?_, mkInitialTasks_map_description 1 descs, mkInitialTasks_pending 1 descs⟩
    · unfold createSession
      simp [hlen]
    · have hf : (fun i => Nat.repr (1 + i)) = fun i => Nat.repr (i + 1) := by
        funext i
        congr 1
        omega
      rw [mkInitialTasks_map_id 1 descs, hf]

/-- Witness for C4: the empty list fails, and a concrete two-description call
creates tasks "1" and "2" with counter 3. -/
theorem claim_C4_witness :
    (createSession "x" [] ([] : Store) =
       (Except.error { code := ErrorCode.invalidRequest,
                       message := "initial_tasks must not be empty" }, ([] : Store))) ∧
    (["a", "b"] : List String) ≠ [] ∧
    createSession "sid" ["a", "b"] ([] : Store) =
      (Except.ok ("sid", mkInitialTasks 1 ["a", "b"]),
       Store.set ([] : Store) "sid"
         { session_id := "sid", tasks := mkInitialTasks 1 ["a", "b"],
           next_task_id_counter :=
             JsNum.num (((["a", "b"] : List String).length : Int) + 1) }) :=
  ⟨(claim_C4_create_session "x" [] []).1 rfl, by decide,
   ((claim_C4_create_session "sid" ["a", "b"] []).2 (by decide)).1⟩

/-! ### Claim C8 (add_task, modelled from the spec) -/

/-- C8: the modelled add_task mints the stringified counter value as the new
task id, creates the task pending with the given description, appends it to
the end of the session's list, increments the counter, and returns the task;
it fails with NotFoundError when the session is missing. -/
theorem claim_C8_add_task (sid desc : String) (store : Store) :
    (store.get sid = none →
      addTask sid desc store = (Except.error (sessionNotFound sid), store)) ∧
    (∀ session c, store.get sid = some session →
      session.next_task_id_counter = JsNum.num c →
      addTask sid desc store =
        (Except.ok { id := toString c, description := desc, status := Status.pending },
         store.set sid
           { session_id := session.session_id,
             tasks := session.tasks ++
               [{ id := toString c, description := desc, status := Status.pending }],
             next_task_id_counter := JsNum.num (c + 1) })) := by
  constructor
  · intro h
    simp [addTask, h]
  · intro session c hs hc
    simp [addTask, hs, hc, jsNumToString, JsNum.add1]

/-- A concrete one-task session and store used by witnesses. -/
def sampleTask1 : Task :=
  { id := "1", description := "a", status := Status.pending }

def sampleSession : Session :=
  { session_id := "s", tasks := [sampleTask1], next_task_id_counter := JsNum.num 2 }

def sampleStore : Store := [("s", sampleSession)]

/-- Witness for C8 at a concrete session with counter 2: the new task gets id
"2", is appended pending, and the counter becomes 3. -/
theorem claim_C8_witness :
    Store.get sampleStore "s" = some sampleSession ∧
    sampleSession.next_task_id_counter = JsNum.num 2 ∧
    addTask "s" "new" sampleStore =
      (Except.ok { id := toString (2 : Int), description := "new", status := Status.pending },
       Store.set sampleStore "s"
         { session_id := sampleSession.session_id,
           tasks := sampleSession.tasks ++
             [{ id := toString (2 : Int), description := "new", status := Status.pending }],
           next_task_id_counter := JsNum.num (2 + 1) }) :=
  ⟨rfl, rfl, (claim_C8_add_task "s" "new" sampleStore).2 sampleSession 2 rfl rfl⟩

/-! ### updateTaskStatus lemmas, claims C6 and C9 -/

theorem map_id_setStatusFirst (tid : String) (st : Status) (l : List Task) :
    (setStatusFirst tid st l).map Task.id = l.map Task.id := by
  induction l with
  | nil => rfl
  | cons t rest ih =>
      by_cases h : t.id = tid
      · simp [setStatusFirst, h]
      · simp [setStatusFirst, h, ih]

theorem setStatusFirst_eq_map (tid : String) (st : Status) (l : List Task)
    (hnd : (l.map Task.id).Nodup) :
    setStatusFirst tid st l
      = l.map (fun u => if u.id = tid then { u with status := st } else u) := by
  induction l with
  | nil => rfl
  | cons t rest ih =>
      simp only [List.map_cons, List.nodup_cons] at hnd
      by_cases h : t.id = tid
      · have hrest : rest.map (fun u => if u.id = tid then { u with status := st } else u)
            = rest := by
          have : ∀ u ∈ rest, (if u.id = tid then { u with status := st } else u) = u := by
            intro u hu
            have hne : u.id ≠ tid := by
              intro hu'
              apply hnd.1
              rw [h, ← hu']
              exact List.mem_map_of_mem Task.id hu
            simp [hne]
          simpa using List.map_congr_left this
        simp [setStatusFirst, h, hrest]
      · simp [setStatusFirst, h, ih hnd.2]

theorem find?_id_eq (l : List Task) (tid : String) (t : Task)
    (hmem : t ∈ l) (hid : t.id = tid) (hnd : (l.map Task.id).Nodup) :
    l.find? (fun u => u.id == tid) = some t := by
  induction l with
  | nil => cases hmem
  | cons x rest ih =>
      simp only [List.map_cons, List.nodup_cons] at hnd
      rcases List.mem_cons.mp hmem with h | h
      · subst h
        exact List.find?_cons_of_pos _ (by simp [hid])
      · have hx : ¬x.id = tid := by
          intro hxe
          apply hnd.1
          rw [hxe, ← hid]
          exact List.mem_map_of_mem Task.id h
        rw [List.find?_cons_of_neg _ (by simp [hx])]
        exact ih h hnd.2

/-- C6: for an existing session, update_task_status fails with NotFoundError
naming the task id exactly when no task has that id (leaving the store
untouched); when the task exists, exactly its status field is set and the
updated task is returned together with the session's new full list, which is
also stored. -/
theorem claim_C6_update_task_status
    (sid tid : String) (st : Status) (store : Store) (session : Session)
    (hs : store.get sid = some session)
    (hnd : (session.tasks.map Task.id).Nodup) :
    ((∀ t ∈ session.tasks, t.id ≠ tid) →
      updateTaskStatus sid tid st store = (Except.error (taskNotFound tid), store)) ∧
    (∀ t, t ∈ session.tasks → t.id = tid →
      updateTaskStatus sid tid st store =
        (Except.ok ({ t with status := st },
           session.tasks.map fun u => if u.id = tid then { u with status := st } else u),
         store.set sid
           { session_id := session.session_id,
             tasks := session.tasks.map fun u =>
               if u.id = tid then { u with status := st } else u,
             next_task_id_counter := session.next_task_id_counter })) := by
  constructor
  · intro h
    have hf : session.tasks.find? (fun u => u.id == tid) = none := by
      rw [List.find?_eq_none]
      intro x hx
      simpa using h x hx
    simp [updateTaskStatus, hs, hf]
  · intro t hmem hid
    have hf := find?_id_eq session.tasks tid t hmem hid hnd
    have hset := setStatusFirst_eq_map tid st session.tasks hnd
    simp [updateTaskStatus, hs, hf, hset]

/-- Witness for C6: on the sample session, task id "9" is absent (NotFoundError,
store untouched) and task id "1" is present (its status alone is set). -/
theorem claim_C6_witness :
    Store.get sampleStore "s" = some sampleSession ∧
    (sampleSession.tasks.map Task.id).Nodup ∧
    (∀ t ∈ sampleSession.tasks, t.id ≠ "9") ∧
    updateTaskStatus "s" "9" Status.completed sampleStore =
      (Except.error (taskNotFound "9"), sampleStore) ∧
    updateTaskStatus "s" "1" Status.completed sampleStore =
      (Except.ok ({ sampleTask1 with status := Status.completed },
         sampleSession.tasks.map fun u =>
           if u.id = "1" then { u with status := Status.completed } else u),
       Store.set sampleStore "s"
         { session_id := sampleSession.session_id,
           tasks := sampleSession.tasks.map fun u =>
             if u.id = "1" then { u with status := Status.completed } else u,
           next_task_id_counter := sampleSession.next_task_id_counter }) :=
  ⟨rfl, by decide, by decide,
   (claim_C6_update_task_status "s" "9" Status.completed sampleStore sampleSession
      rfl (by decide)).1 (by decide),
   (claim_C6_update_task_status "s" "1" Status.completed sampleStore sampleSession
      rfl (by decide)).2 sampleTask1 (by decide) rfl⟩

theorem setStatusFirst_idem (tid : String) (st : Status) (l : List Task) :
    setStatusFirst tid st (setStatusFirst tid st l) = setStatusFirst tid st l := by
  induction l with
  | nil => rfl
  | cons t rest ih =>
      obtain ⟨i0, d0, s0⟩ := t
      by_cases h : i0 = tid
      · simp [setStatusFirst, h]
      · simp [setStatusFirst, h, ih]

theorem find?_setStatusFirst (tid : String) (st : Status) (l : List Task) :
    (setStatusFirst tid st l).find? (fun u => u.id == tid)
      = (l.find? (fun u => u.id == tid)).map (fun u => { u with status := st }) := by
  induction l with
  | nil => rfl
  | cons t rest ih =>
      obtain ⟨i0, d0, s0⟩ := t
      by_cases h : i0 = tid
      · simp [setStatusFirst, h]
      · simp [setStatusFirst, h, ih]

/-- C9: update_task_status is idempotent — on an existing session and task,
running the same (session_id, task_id, status) update twice produces exactly
the result and store that one application produces. -/
theorem claim_C9_idempotent
    (sid tid : String) (st : Status) (store : Store) (session : Session)
    (hs : store.get sid = some session)
    (t : Task) (hmem : t ∈ session.tasks) (hid : t.id = tid) :
    updateTaskStatus sid tid st ((updateTaskStatus sid tid st store).2) =
      updateTaskStatus sid tid st store := by
  have hsome : (session.tasks.find? (fun u => u.id == tid)).isSome := by
    rw [List.find?_isSome]
    exact ⟨t, hmem, by simp [hid]⟩
  obtain ⟨u, hu⟩ := Option.isSome_iff_exists.mp hsome
  obtain ⟨ui, ud, us⟩ := u
  have h1 : updateTaskStatus sid tid st store =
      (Except.ok (⟨ui, ud, st⟩, setStatusFirst tid st session.tasks),
       store.set sid { session with tasks := setStatusFirst tid st session.tasks }) := by
    simp [updateTaskStatus, hs, hu]
  rw [h1]
  have h2 : (store.set sid
        { session with tasks := setStatusFirst tid st session.tasks }).get sid
      = some { session with tasks := setStatusFirst tid st session.tasks } :=
    Store.get_set_self _ _ _
  have h3 : (setStatusFirst tid st session.tasks).find? (fun x => x.id == tid)
      = some ⟨ui, ud, st⟩ := by
    rw [find?_setStatusFirst, hu]
    rfl
  simp [updateTaskStatus, h2, h3, setStatusFirst_idem, Store.set_set]

/-- Witness for C9: completing task "1" of the sample session twice equals
completing it once. -/
theorem claim_C9_witness :
    Store.get sampleStore "s" = some sampleSession ∧
    sampleTask1 ∈ sampleSession.tasks ∧
    sampleTask1.id = "1" ∧
    updateTaskStatus "s" "1" Status.completed
        ((updateTaskStatus "s" "1" Status.completed sampleStore).2) =
      updateTaskStatus "s" "1" Status.completed sampleStore :=
  ⟨rfl, by decide, rfl,
   claim_C9_idempotent "s" "1" Status.completed sampleStore sampleSession rfl
     sampleTask1 (by decide) rfl⟩

/-! ### Decimal rendering round-trips through parseInt

`Nat.repr` (the stringification used when minting task ids) parses back to the
same number under the embedded `parseInt(-, 10)`; in particular it is
injective, which underpins the distinct-ids invariant. -/

/-- Most-significant-first decimal digit characters of a natural number. -/
def decDigits (n : Nat) : List Char :=
  if _h : n < 10 then [Nat.digitChar n]
  else
    have : n / 10 < n := Nat.div_lt_self (by omega) (by omega)
    decDigits (n / 10) ++ [Nat.digitChar (n % 10)]
termination_by n

theorem toDigitsCore_eq_decDigits (fuel n : Nat) (ds : List Char) (h : n < fuel) :
    Nat.toDigitsCore 10 fuel n ds = decDigits n ++ ds := by
  induction fuel generalizing n ds with
  | zero => omega
  | succ fuel ih =>
      rw [Nat.toDigitsCore]
      by_cases h0 : n / 10 = 0
      · have hn : n < 10 := by omega
        have hm : n % 10 = n := by omega
        rw [decDigits]
        simp [h0, hn, hm]
      · have hlt : n / 10 < fuel := by omega
        have hrec := ih (n / 10) (Nat.digitChar (n % 10) :: ds) hlt
        rw [decDigits]
        have hn : ¬n < 10 := by omega
        simp [h0, hn, hrec]

theorem repr_eq_decDigits (n : Nat) : Nat.repr n = (decDigits n).asString := by
  unfold Nat.repr Nat.toDigits
  rw [toDigitsCore_eq_decDigits (n + 1) n [] (by omega)]
  simp

theorem digitChar_facts (d : Nat) (h : d < 10) :
    digitVal (Nat.digitChar d) = some d ∧
    isJsWhitespace (Nat.digitChar d) = false ∧
    ¬Nat.digitChar d = '-' ∧ ¬Nat.digitChar d = '+' := by
  interval_cases d <;> exact ⟨by decide, by decide, by decide, by decide⟩

theorem decDigits_shape (n : Nat) :
    ∃ d tl, d < 10 ∧ decDigits n = Nat.digitChar d :: tl := by
  induction n using Nat.strong_induction_on with
  | _ n ih =>
      by_cases h : n < 10
      · exact ⟨n, [], h, by rw [decDigits]; simp [h]⟩
      · have hlt : n / 10 < n := Nat.div_lt_self (by omega) (by omega)
        obtain ⟨d, tl, hd, htl⟩ := ih (n / 10) hlt
        refine ⟨d, tl ++ [Nat.digitChar (n % 10)], hd, ?_⟩
        rw [decDigits]
        simp [h, htl]

theorem parseDigits_decDigits (n : Nat) (rest : List Char) :
    parseDigits 10 none (decDigits n ++ rest)
      = parseDigits 10 (some n) rest := by
  induction n using Nat.strong_induction_on generalizing rest with
  | _ n ih =>
      by_cases h : n < 10
      · rw [decDigits]
        have hfacts := digitChar_facts n h
        simp [h, parseDigits, hfacts.1]
      · have hlt : n / 10 < n := Nat.div_lt_self (by omega) (by omega)
        rw [decDigits]
        simp only [h, dite_false, List.append_assoc, List.cons_append, List.nil_append]
        rw [ih (n / 10) hlt]
        have hm : n % 10 < 10 := by omega
        have hfacts := digitChar_facts (n % 10) hm
        have harith : n / 10 * 10 + n % 10 = n := by omega
        simp [parseDigits, hfacts.1, hm, harith]

theorem parseInt10_repr (n : Nat) : parseInt10 (Nat.repr n) = JsNum.num n := by
  obtain ⟨d, tl, hd, hshape⟩ := decDigits_shape n
  have hfacts := digitChar_facts d hd
  have hdata : (Nat.repr n).data = decDigits n := by
    rw [repr_eq_decDigits]
    rfl
  unfold parseInt10 parseIntCore
  rw [hdata, hshape]
  rw [List.dropWhile_cons]
  simp only [hfacts.2.1, Bool.false_eq_true, if_false]
  have hsign : splitSign (Nat.digitChar d :: tl) = (1, Nat.digitChar d :: tl) := by
    unfold splitSign
    simp [hfacts.2.2.1, hfacts.2.2.2]
  rw [hsign]
  simp only [Bool.false_eq_true, if_false]
  rw [← hshape]
  have := parseDigits_decDigits n []
  simp only [List.append_nil] at this
  simp [this, parseDigits]

theorem repr_injective : Function.Injective Nat.repr := by
  intro a b h
  have ha := parseInt10_repr a
  have hb := parseInt10_repr b
  rw [h, hb] at ha
  have : (b : Int) = (a : Int) := by
    injection ha
  exact_mod_cast this.symm

/-! ### Id multiset preservation and sorting permutation lemmas -/

theorem map_id_replaceFirst (e : Task) (l : List Task) :
    (replaceFirst e l).map Task.id = l.map Task.id := by
  induction l with
  | nil => rfl
  | cons t rest ih =>
      by_cases h : t.id = e.id
      · simp [replaceFirst, h]
      · simp [replaceFirst, h, ih]

theorem nodup_upsertOne (s : Session) (e : Task)
    (hnd : (s.tasks.map Task.id).Nodup) :
    ((upsertOne s e).tasks.map Task.id).Nodup := by
  unfold upsertOne
  by_cases h : s.tasks.any (fun t => t.id == e.id) = true
  · simp only [h, if_true]
    rw [map_id_replaceFirst]
    exact hnd
  · simp only [h, if_false]
    have hnotin : e.id ∉ s.tasks.map Task.id := by
      intro hmem
      obtain ⟨t, ht, hte⟩ := List.mem_map.mp hmem
      apply h
      rw [List.any_eq_true]
      exact ⟨t, ht, by simp [hte]⟩
    simp [List.nodup_append, hnd, List.disjoint_singleton, hnotin]

theorem nodup_upsertAll (input : List Task) (s : Session)
    (hnd : (s.tasks.map Task.id).Nodup) :
    ((input.foldl upsertOne s).tasks.map Task.id).Nodup := by
  induction input generalizing s with
  | nil => simpa using hnd
  | cons e rest ih =>
      rw [List.foldl_cons]
      exact ih (upsertOne s e) (nodup_upsertOne s e hnd)

theorem upsertOne_session_id (s : Session) (e : Task) :
    (upsertOne s e).session_id = s.session_id := by
  unfold upsertOne
  split <;> rfl

theorem upsertAll_session_id (input : List Task) (s : Session) :
    (input.foldl upsertOne s).session_id = s.session_id := by
  induction input generalizing s with
  | nil => rfl
  | cons e rest ih =>
      rw [List.foldl_cons, ih (upsertOne s e), upsertOne_session_id]

theorem sortInsert_perm (t : Task) (l : List Task) :
    (sortInsert t l).Perm (t :: l) := by
  induction l with
  | nil => exact List.Perm.refl _
  | cons x rest ih =>
      by_cases h : taskLe t x = true
      · simp only [sortInsert, h, if_true]
        exact List.Perm.refl _
      · simp only [sortInsert, h, if_false]
        exact (ih.cons x).trans (List.Perm.swap t x rest)

theorem jsSortTasks_perm (l : List Task) : (jsSortTasks l).Perm l := by
  induction l with
  | nil => exact List.Perm.refl _
  | cons t rest ih =>
      show (sortInsert t (jsSortTasks rest)).Perm (t :: rest)
      exact (sortInsert_perm _ _).trans (ih.cons t)

/-- C7: no two tasks of one session share an id — create_session creates its
session with pairwise distinct task ids, and get_tasks, update_task_status,
update_tasks and get_next_pending_task each map a session with pairwise
distinct task ids to a stored session with pairwise distinct task ids. -/
theorem claim_C7_distinct_ids :
    (∀ newId descs (store : Store) (s : Session),
        ((createSession newId descs store).2).get newId = some s →
        store.get newId = none →
        (s.tasks.map Task.id).Nodup) ∧
    (∀ sid (store : Store) session (s : Session),
        store.get sid = some session → (session.tasks.map Task.id).Nodup →
        ((getTasks sid store).2).get sid = some s →
        (s.tasks.map Task.id).Nodup) ∧
    (∀ sid tid st (store : Store) session (s : Session),
        store.get sid = some session → (session.tasks.map Task.id).Nodup →
        ((updateTaskStatus sid tid st store).2).get sid = some s →
        (s.tasks.map Task.id).Nodup) ∧
    (∀ sid input (store : Store) session (s : Session),
        store.get sid = some session → (session.tasks.map Task.id).Nodup →
        ((updateTasks sid input store).2).get sid = some s →
        (s.tasks.map Task.id).Nodup) ∧
    (∀ sid (store : Store) session (s : Session),
        store.get sid = some session → (session.tasks.map Task.id).Nodup →
        ((getNextPendingTask sid store).2).get sid = some s →
        (s.tasks.map Task.id).Nodup) := by
  refine ⟨?_, ?_, ?_, ?_, ?_⟩
  · intro newId descs store s hget hnone
    unfold createSession at hget
    by_cases hlen : descs.length = 0
    · rw [if_pos hlen] at hget
      rw [hnone] at hget
      cases hget
    · rw [if_neg hlen] at hget
      simp only [Store.get_set_self, Option.some.injEq] at hget
      subst hget
      rw [mkInitialTasks_map_id]
      apply List.Nodup.map ?_ (List.nodup_range _)
      intro a b hab
      have := repr_injective hab
      omega
  · intro sid store session s hs hnd hget
    simp only [getTasks, hs, Option.some.injEq] at hget
    subst hget
    exact hnd
  · intro sid tid st store session s hs hnd hget
    cases hfind : session.tasks.find? (fun t => t.id == tid) with
    | none =>
        simp only [updateTaskStatus, hs, hfind, Option.some.injEq] at hget
        subst hget
        exact hnd
    | some u =>
        simp only [updateTaskStatus, hs, hfind, Store.get_set_self,
                   Option.some.injEq] at hget
        subst hget
        simpa [map_id_setStatusFirst] using hnd
  · intro sid input store session s hs hnd hget
    simp only [updateTasks, hs, Store.get_set_self, Option.some.injEq] at hget
    subst hget
    have hperm := (jsSortTasks_perm ((input.foldl upsertOne session).tasks)).map Task.id
    exact hperm.nodup_iff.mpr (nodup_upsertAll input session hnd)
  · intro sid store session s hs hnd hget
    cases hfil : session.tasks.filter (fun t => t.status == Status.pending) with
    | nil =>
        simp only [getNextPendingTask, hs, hfil, Option.some.injEq] at hget
        subst hget
        exact hnd
    | cons p rest =>
        simp only [getNextPendingTask, hs, hfil, Option.some.injEq] at hget
        subst hget
        exact hnd

/-- Sample data for the C7 witness: upserting a new task with id "9" into the
sample session. -/
def sampleTask9 : Task :=
  { id := "9", description := "x", status := Status.completed }

def sampleSession9 : Session :=
  { session_id := "s", tasks := [sampleTask1, sampleTask9],
    next_task_id_counter := JsNum.num 10 }

/-- Witness for C7: update_tasks on the sample session with a new id "9"
stores a session whose task ids are still pairwise distinct. -/
theorem claim_C7_witness :
    Store.get sampleStore "s" = some sampleSession ∧
    (sampleSession.tasks.map Task.id).Nodup ∧
    ((updateTasks "s" [sampleTask9] sampleStore).2).get "s" = some sampleSession9 ∧
    (sampleSession9.tasks.map Task.id).Nodup :=
  ⟨rfl, by decide, by decide,
   claim_C7_distinct_ids.2.2.2.1 "s" [sampleTask9] sampleStore sampleSession
     sampleSession9 rfl (by decide) (by decide)⟩

/-! ### Claim C3: next pending task -/

theorem nextPendingReduce_min (rest : List Task) (p : Task)
    (hp : parseIntAuto p.id ≠ JsNum.nan)
    (hall : ∀ x ∈ rest, parseIntAuto x.id ≠ JsNum.nan) :
    nextPendingReduce p rest ∈ p :: rest ∧
      ∀ u ∈ p :: rest, keyedAuto (nextPendingReduce p rest) ≤ keyedAuto u := by
  induction rest generalizing p with
  | nil =>
      constructor
      · simp [nextPendingReduce]
      · intro u hu
        rcases List.mem_cons.mp hu with h | h
        · subst h
          exact le_refl _
        · cases h
  | cons c rest ih =>
      obtain ⟨kp, hkp⟩ : ∃ v, parseIntAuto p.id = JsNum.num v := by
        cases hpc : parseIntAuto p.id
        · exact absurd hpc hp
        · exact ⟨_, rfl⟩
      obtain ⟨kc, hkc⟩ : ∃ v, parseIntAuto c.id = JsNum.num v := by
        cases hcc : parseIntAuto c.id
        · exact absurd hcc (hall c (by simp))
        · exact ⟨_, rfl⟩
      have hkeyp : keyedAuto p = kp := by simp [keyedAuto, hkp]
      have hkeyc : keyedAuto c = kc := by simp [keyedAuto, hkc]
      have hstep : nextPendingReduce p (c :: rest) =
          nextPendingReduce
            (if jsLt (parseIntAuto p.id) (parseIntAuto c.id) then p else c) rest := by
        unfold nextPendingReduce
        rw [List.foldl_cons]
      have htail : ∀ x ∈ rest, parseIntAuto x.id ≠ JsNum.nan := by
        intro x hx
        exact hall x (by simp [hx])
      by_cases hlt : jsLt (parseIntAuto p.id) (parseIntAuto c.id) = true
      · have hpc : kp < kc := by
          rw [hkp, hkc] at hlt
          simpa [jsLt] using hlt
        rw [hstep, if_pos hlt]
        obtain ⟨hmem, hmin⟩ := ih p hp htail
        constructor
        · rcases List.mem_cons.mp hmem with h | h
          · exact List.mem_cons.mpr (Or.inl h)
          · exact List.mem_cons_of_mem _ (List.mem_cons_of_mem _ h)
        · intro u hu
          rcases List.mem_cons.mp hu with h | h
          · subst h
            exact hmin u (List.mem_cons_self _ _)
          · rcases List.mem_cons.mp h with h2 | h2
            · subst h2
              have h1 := hmin p (List.mem_cons_self _ _)
              rw [hkeyp] at h1
              rw [hkeyc]
              omega
            · exact hmin u (List.mem_cons_of_mem _ h2)
      · have hcp : kc ≤ kp := by
          rw [hkp, hkc] at hlt
          simp [jsLt] at hlt
          omega
        rw [hstep, if_neg hlt]
        obtain ⟨hmem, hmin⟩ := ih c (hall c (by simp)) htail
        constructor
        · rcases List.mem_cons.mp hmem with h | h
          · exact List.mem_cons_of_mem _ (List.mem_cons.mpr (Or.inl h))
          · exact List.mem_cons_of_mem _ (List.mem_cons_of_mem _ h)
        · intro u hu
          rcases List.mem_cons.mp hu with h | h
          · subst h
            have h1 := hmin c (List.mem_cons_self _ _)
            rw [hkeyc] at h1
            rw [hkeyp]
            omega
          · exact hmin u h


/-- C3 (amended): get_next_pending_task considers exactly the pending tasks;
when there are none it returns the explicit null result, not an error;
otherwise, provided every pending task id parses as an integer, it returns a
pending task whose parsed id is numerically least among the pending tasks. -/
theorem claim_C3_next_pending_min
    (sid : String) (store : Store) (session : Session)
    (hs : store.get sid = some session)
    (hp : ∀ t ∈ session.tasks, t.status = Status.pending →
      parseIntAuto t.id ≠ JsNum.nan) :
    ((∀ t ∈ session.tasks, t.status ≠ Status.pending) →
      getNextPendingTask sid store = (Except.ok none, store)) ∧
    (∀ q, q ∈ session.tasks → q.status = Status.pending →
      ∃ t, getNextPendingTask sid store = (Except.ok (some t), store) ∧
        t ∈ session.tasks ∧ t.status = Status.pending ∧
        ∀ u ∈ session.tasks, u.status = Status.pending →
          keyedAuto t ≤ keyedAuto u) := by
  constructor
  · intro h
    have hfil : session.tasks.filter (fun t => t.status == Status.pending) = [] := by
      rw [List.filter_eq_nil_iff]
      intro a ha
      simp [h a ha]
    simp [getNextPendingTask, hs, hfil]
  · intro q hq hqp
    have hqf : q ∈ session.tasks.filter (fun t => t.status == Status.pending) := by
      rw [List.mem_filter]
      exact ⟨hq, by simp [hqp]⟩
    cases hfil : session.tasks.filter (fun t => t.status == Status.pending) with
    | nil =>
        rw [hfil] at hqf
        cases hqf
    | cons p rest =>
        have hmemf : ∀ x ∈ p :: rest, x ∈ session.tasks ∧ x.status = Status.pending := by
          intro x hx
          rw [← hfil] at hx
          have hx2 := List.mem_filter.mp hx
          exact ⟨hx2.1, by simpa using hx2.2⟩
        have hparse : ∀ x ∈ p :: rest, parseIntAuto x.id ≠ JsNum.nan := by
          intro x hx
          obtain ⟨h1, h2⟩ := hmemf x hx
          exact hp x h1 h2
        obtain ⟨hmem, hmin⟩ := nextPendingReduce_min rest p
            (hparse p (List.mem_cons_self _ _))
            (fun x hx => hparse x (List.mem_cons_of_mem _ hx))
        refine ⟨nextPendingReduce p rest, ?_, (hmemf _ hmem).1, (hmemf _ hmem).2, ?_⟩
        · simp [getNextPendingTask, hs, hfil]
        · intro u hu hup
          apply hmin
          rw [← hfil, List.mem_filter]
          exact ⟨hu, by simp [hup]⟩

/-- Pending tasks with a numeric and a non-numeric id, for the C3
counterexample. -/
def task5 : Task := { id := "5", description := "a", status := Status.pending }

def taskAbc : Task := { id := "abc", description := "b", status := Status.pending }

def mixedSession : Session :=
  { session_id := "s", tasks := [task5, taskAbc],
    next_task_id_counter := JsNum.num 6 }

def mixedStore : Store := [("s", mixedSession)]

/-- Counterexample to C3 as stated: on a session whose pending tasks are id
"5" and id "abc" (in that stored order), get_next_pending_task returns the
task with id "abc" — an id with no integer interpretation — although the
distinct pending task with id "5" is the one whose id, interpreted as an
integer, is numerically smallest.  (NaN comparisons are false, so the reduce
keeps the later element.) -/
theorem claim_C3_counterexample :
    getNextPendingTask "s" mixedStore = (Except.ok (some taskAbc), mixedStore) ∧
    task5 ∈ mixedSession.tasks ∧
    task5.status = Status.pending ∧
    parseIntAuto task5.id = JsNum.num 5 ∧
    parseIntAuto taskAbc.id = JsNum.nan ∧
    taskAbc ≠ task5 := by
  refine ⟨by decide, by decide, rfl, by decide, by decide, by decide⟩

/-- Witness for C3 (amended) on the sample session: its only task is pending
with the parseable id "1", and it is returned as the minimum. -/
theorem claim_C3_witness :
    Store.get sampleStore "s" = some sampleSession ∧
    (∀ t ∈ sampleSession.tasks, t.status = Status.pending →
      parseIntAuto t.id ≠ JsNum.nan) ∧
    (∃ t, getNextPendingTask "s" sampleStore = (Except.ok (some t), sampleStore) ∧
      t ∈ sampleSession.tasks ∧ t.status = Status.pending ∧
      ∀ u ∈ sampleSession.tasks, u.status = Status.pending →
        keyedAuto t ≤ keyedAuto u) :=
  ⟨rfl, by decide,
   (claim_C3_next_pending_min "s" sampleStore sampleSession rfl (by decide)).2
     sampleTask1 (by decide) rfl⟩

/-! ### Claim C2: counter advancement on append -/

/-- C2 (amended): when update_tasks appends a task whose id matches no stored
task to a session with integer counter c, the counter becomes
`Math.max(c, parseInt(id, 10) + 1)`: if the id parses to v, that is
max(c, v + 1) — in particular v ≥ c yields v + 1 — and if the id does not
parse, NaN propagates and the counter becomes NaN rather than keeping its
previous value; in both cases the task is stored in the session. -/
theorem claim_C2_counter_advance
    (sid : String) (e : Task) (store : Store) (session : Session) (c : Int)
    (hs : store.get sid = some session)
    (hnew : ∀ t ∈ session.tasks, t.id ≠ e.id)
    (hc : session.next_task_id_counter = JsNum.num c) :
    (∀ v : Int, parseInt10 e.id = JsNum.num v →
        ((updateTasks sid [e] store).2.get sid).map Session.next_task_id_counter
          = some (JsNum.num (max c (v + 1)))) ∧
    (parseInt10 e.id = JsNum.nan →
        ((updateTasks sid [e] store).2.get sid).map Session.next_task_id_counter
          = some JsNum.nan) ∧
    (∃ s', (updateTasks sid [e] store).2.get sid = some s' ∧ e ∈ s'.tasks) := by
  have hany : session.tasks.any (fun t => t.id == e.id) = false := by
    rw [List.any_eq_false]
    intro x hx
    simp [hnew x hx]
  have hfold : [e].foldl upsertOne session = upsertOne session e := by
    rw [List.foldl_cons, List.foldl_nil]
  have hup : upsertOne session e =
      { session_id := session.session_id,
        tasks := session.tasks ++ [e],
        next_task_id_counter := jsMax (JsNum.num c) ((parseInt10 e.id).add1) } := by
    unfold upsertOne
    rw [hany]
    simp [hc]
  have hmain : (updateTasks sid [e] store).2.get sid
      = some { session_id := session.session_id,
               tasks := jsSortTasks (session.tasks ++ [e]),
               next_task_id_counter :=
                 jsMax (JsNum.num c) ((parseInt10 e.id).add1) } := by
    simp [updateTasks, hs, hfold, hup, Store.get_set_self]
  refine ⟨?_, ?_, ?_⟩
  · intro v hv
    rw [hmain]
    simp [hv, JsNum.add1, jsMax]
  · intro hv
    rw [hmain]
    simp [hv, JsNum.add1, jsMax]
  · refine ⟨_, hmain, ?_⟩
    exact ((jsSortTasks_perm (session.tasks ++ [e])).mem_iff).mpr (by simp)

/-- Counterexample to C2 as stated: upserting a new task with the unparseable
id "abc" into the sample session (counter 2) stores the task but sets the
counter to NaN — `Math.max(2, NaN) = NaN` — instead of keeping its previous
value 2. -/
theorem claim_C2_counterexample :
    sampleSession.next_task_id_counter = JsNum.num 2 ∧
    parseInt10 taskAbc.id = JsNum.nan ∧
    ((updateTasks "s" [taskAbc] sampleStore).2.get "s").map Session.next_task_id_counter
      = some JsNum.nan ∧
    some JsNum.nan ≠ some (JsNum.num 2) ∧
    ((updateTasks "s" [taskAbc] sampleStore).2.get "s").map
        (fun s => decide (taskAbc ∈ s.tasks)) = some true := by
  refine ⟨rfl, by decide, by decide, by decide, by decide⟩

/-- Witness for C2 (amended): appending the new parseable id "9" to the sample
session with counter 2 advances the counter to max(2, 9 + 1) = 10. -/
theorem claim_C2_witness :
    Store.get sampleStore "s" = some sampleSession ∧
    (∀ t ∈ sampleSession.tasks, t.id ≠ sampleTask9.id) ∧
    sampleSession.next_task_id_counter = JsNum.num 2 ∧
    parseInt10 sampleTask9.id = JsNum.num 9 ∧
    ((updateTasks "s" [sampleTask9] sampleStore).2.get "s").map Session.next_task_id_counter
      = some (JsNum.num (max 2 (9 + 1))) :=
  ⟨rfl, by decide, rfl, by decide,
   (claim_C2_counter_advance "s" sampleTask9 sampleStore sampleSession 2 rfl
      (by decide) rfl).1 9 (by decide)⟩

/-! ### Claim C1: batch upsert membership characterization and sorting -/

theorem lastById_mem (tid : String) (l : List Task) (u : Task)
    (h : lastById tid l = some u) : u ∈ l ∧ u.id = tid := by
  induction l with
  | nil => cases h
  | cons e rest ih =>
      rw [lastById] at h
      cases hr : lastById tid rest with
      | some v =>
          rw [hr] at h
          cases h
          have := ih hr
          exact ⟨List.mem_cons_of_mem _ this.1, this.2⟩
      | none =>
          rw [hr] at h
          by_cases he : e.id = tid
          · rw [if_pos he] at h
            cases h
            exact ⟨List.mem_cons_self _ _, he⟩
          · rw [if_neg he] at h
            cases h

theorem mem_replaceFirst (e t : Task) (l : List Task)
    (hnd : (l.map Task.id).Nodup)
    (hin : e.id ∈ l.map Task.id) :
    t ∈ replaceFirst e l ↔ t = e ∨ (t ∈ l ∧ t.id ≠ e.id) := by
  induction l with
  | nil => simp at hin
  | cons x rest ih =>
      simp only [List.map_cons, List.nodup_cons] at hnd
      by_cases h : x.id = e.id
      · simp only [replaceFirst, h, if_pos rfl]
        constructor
        · intro hm
          rcases List.mem_cons.mp hm with h1 | h1
          · exact Or.inl h1
          · right
            refine ⟨List.mem_cons_of_mem _ h1, ?_⟩
            intro he
            apply hnd.1
            rw [h, ← he]
            exact List.mem_map_of_mem Task.id h1
        · intro hm
          rcases hm with h1 | ⟨h1, h2⟩
          · exact List.mem_cons.mpr (Or.inl h1)
          · rcases List.mem_cons.mp h1 with h3 | h3
            · exfalso
              apply h2
              rw [h3, h]
            · exact List.mem_cons_of_mem _ h3
      · have hin' : e.id ∈ rest.map Task.id := by
          rcases List.mem_cons.mp hin with h1 | h1
          · exact absurd h1.symm h
          · exact h1
        simp only [replaceFirst, if_neg h]
        rw [List.mem_cons, ih hnd.2 hin']
        constructor
        · rintro (h1 | h2)
          · subst h1
            right
            refine ⟨List.mem_cons_self _ _, ?_⟩
            exact h
          · rcases h2 with h2 | ⟨h3, h4⟩
            · exact Or.inl h2
            · exact Or.inr ⟨List.mem_cons_of_mem _ h3, h4⟩
        · rintro (h1 | ⟨h3, h4⟩)
          · exact Or.inr (Or.inl h1)
          · rcases List.mem_cons.mp h3 with h5 | h5
            · exact Or.inl h5
            · exact Or.inr (Or.inr ⟨h5, h4⟩)

theorem mem_upsertOne (s : Session) (e t : Task)
    (hnd : (s.tasks.map Task.id).Nodup) :
    t ∈ (upsertOne s e).tasks ↔ t = e ∨ (t ∈ s.tasks ∧ t.id ≠ e.id) := by
  unfold upsertOne
  by_cases h : s.tasks.any (fun x => x.id == e.id) = true
  · simp only [h, if_true]
    have hin : e.id ∈ s.tasks.map Task.id := by
      rw [List.any_eq_true] at h
      obtain ⟨x, hx, hxe⟩ := h
      rw [beq_iff_eq] at hxe
      rw [← hxe]
      exact List.mem_map_of_mem Task.id hx
    exact mem_replaceFirst e t s.tasks hnd hin
  · simp only [h, if_false]
    have hnotin : ∀ x ∈ s.tasks, x.id ≠ e.id := by
      intro x hx hxe
      apply h
      rw [List.any_eq_true]
      exact ⟨x, hx, by simp [hxe]⟩
    constructor
    · intro hm
      rcases List.mem_append.mp hm with h1 | h1
      · exact Or.inr ⟨h1, hnotin t h1⟩
      · left
        simpa using h1
    · rintro (h1 | ⟨h1, _⟩)
      · subst h1
        simp
      · exact List.mem_append.mpr (Or.inl h1)

theorem mem_upsertAll (input : List Task) (s : Session) (t : Task)
    (hnd : (s.tasks.map Task.id).Nodup) :
    t ∈ (input.foldl upsertOne s).tasks ↔
      (lastById t.id input = some t ∨
       (lastById t.id input = none ∧ t ∈ s.tasks)) := by
  induction input generalizing s with
  | nil => simp [lastById]
  | cons e rest ih =>
      rw [List.foldl_cons, ih (upsertOne s e) (nodup_upsertOne s e hnd)]
      have hm := mem_upsertOne s e t hnd
      cases hr : lastById t.id rest with
      | some v =>
          have hcons : lastById t.id (e :: rest) = some v := by
            rw [lastById, hr]
          rw [hcons]
          constructor
          · rintro (h1 | ⟨h1, -⟩)
            · exact Or.inl h1
            · exact Option.noConfusion h1
          · rintro (h1 | ⟨h1, -⟩)
            · exact Or.inl h1
            · exact Option.noConfusion h1
      | none =>
          have hcons : lastById t.id (e :: rest)
              = if e.id = t.id then some e else none := by
            rw [lastById, hr]
          rw [hcons]
          by_cases he : e.id = t.id
          · rw [if_pos he]
            constructor
            · rintro (h1 | ⟨-, h2⟩)
              · exact Option.noConfusion h1
              · rw [hm] at h2
                rcases h2 with h2 | ⟨-, h3⟩
                · left
                  rw [h2]
                · exact absurd he.symm h3
            · rintro (h1 | ⟨h1, -⟩)
              · have het : e = t := Option.some.inj h1
                exact Or.inr ⟨rfl, hm.mpr (Or.inl het.symm)⟩
              · exact Option.noConfusion h1
          · rw [if_neg he]
            constructor
            · rintro (h1 | ⟨-, h2⟩)
              · exact Option.noConfusion h1
              · rw [hm] at h2
                rcases h2 with h2 | ⟨h3, -⟩
                · exfalso
                  apply he
                  rw [h2]
                · exact Or.inr ⟨rfl, h3⟩
            · rintro (h1 | ⟨-, h1⟩)
              · exact Option.noConfusion h1
              · exact Or.inr ⟨rfl, hm.mpr (Or.inr ⟨h1, fun hte => he hte.symm⟩)⟩

theorem taskLe_eq (a b : Task)
    (ha : parseInt10 a.id ≠ JsNum.nan) (hb : parseInt10 b.id ≠ JsNum.nan) :
    taskLe a b = decide (keyed a ≤ keyed b) := by
  obtain ⟨x, hx⟩ : ∃ v, parseInt10 a.id = JsNum.num v := by
    cases hpc : parseInt10 a.id
    · exact absurd hpc ha
    · exact ⟨_, rfl⟩
  obtain ⟨y, hy⟩ : ∃ v, parseInt10 b.id = JsNum.num v := by
    cases hpc : parseInt10 b.id
    · exact absurd hpc hb
    · exact ⟨_, rfl⟩
  simp [taskLe, keyed, hx, hy]

theorem mem_sortInsert (t u : Task) (l : List Task) :
    u ∈ sortInsert t l ↔ u = t ∨ u ∈ l := by
  rw [(sortInsert_perm t l).mem_iff, List.mem_cons]

theorem pairwise_sortInsert (t : Task) (l : List Task)
    (hp : ∀ x ∈ t :: l, parseInt10 x.id ≠ JsNum.nan)
    (hl : l.Pairwise (fun a b => keyed a ≤ keyed b)) :
    (sortInsert t l).Pairwise (fun a b => keyed a ≤ keyed b) := by
  induction l with
  | nil => simp [sortInsert]
  | cons x rest ih =>
      have hpt : parseInt10 t.id ≠ JsNum.nan := hp t (List.mem_cons_self _ _)
      have hpx : parseInt10 x.id ≠ JsNum.nan := hp x (by simp)
      rw [List.pairwise_cons] at hl
      by_cases h : taskLe t x = true
      · have htx : keyed t ≤ keyed x := by
          rw [taskLe_eq t x hpt hpx] at h
          exact of_decide_eq_true h
        simp only [sortInsert, h, if_true]
        rw [List.pairwise_cons]
        constructor
        · intro b hb
          rcases List.mem_cons.mp hb with h1 | h1
          · rw [h1]
            exact htx
          · exact le_trans htx (hl.1 b h1)
        · rw [List.pairwise_cons]
          exact hl
      · have hxt : keyed x ≤ keyed t := by
          rw [taskLe_eq t x hpt hpx] at h
          have := of_decide_eq_false (Bool.of_not_eq_true h)
          omega
        simp only [sortInsert]
        rw [if_neg h, List.pairwise_cons]
        constructor
        · intro b hb
          rcases (mem_sortInsert t b rest).mp hb with h1 | h1
          · rw [h1]
            exact hxt
          · exact hl.1 b h1
        · apply ih
          · intro y hy
            rcases List.mem_cons.mp hy with h1 | h1
            · rw [h1]
              exact hpt
            · exact hp y (by simp [h1])
          · exact hl.2

theorem pairwise_jsSortTasks (l : List Task)
    (hp : ∀ x ∈ l, parseInt10 x.id ≠ JsNum.nan) :
    (jsSortTasks l).Pairwise (fun a b => keyed a ≤ keyed b) := by
  induction l with
  | nil => simp [jsSortTasks]
  | cons t rest ih =>
      show (sortInsert t (jsSortTasks rest)).Pairwise _
      apply pairwise_sortInsert
      · intro x hx
        rcases List.mem_cons.mp hx with h1 | h1
        · rw [h1]
          exact hp t (List.mem_cons_self _ _)
        · have : x ∈ rest := (jsSortTasks_perm rest).mem_iff.mp h1
          exact hp x (List.mem_cons_of_mem _ this)
      · exact ih (fun x hx => hp x (List.mem_cons_of_mem _ hx))

theorem parses_upsertAll (input : List Task) (s : Session)
    (hnd : (s.tasks.map Task.id).Nodup)
    (hps : ∀ t ∈ s.tasks, parseInt10 t.id ≠ JsNum.nan)
    (hpi : ∀ t ∈ input, parseInt10 t.id ≠ JsNum.nan) :
    ∀ t ∈ (input.foldl upsertOne s).tasks, parseInt10 t.id ≠ JsNum.nan := by
  intro t ht
  rw [mem_upsertAll input s t hnd] at ht
  rcases ht with h | ⟨-, h2⟩
  · exact hpi t (lastById_mem _ _ _ h).1
  · exact hps t h2

/-- C1: for an existing session whose stored ids are pairwise distinct and
parseable and whose input ids are parseable, update_tasks behaves as an
in-order batch upsert: a task t is in the returned list exactly when t is the
last input entry carrying its id (entries replace the stored task of the same
id wholesale, and entries with a new id are appended) or no input entry
carries its id and t was already stored; and the returned list — which is
also exactly the session's new stored list — is sorted by ascending numeric
id regardless of the input order. -/
theorem claim_C1_update_tasks
    (sid : String) (input : List Task) (store : Store) (session : Session)
    (hs : store.get sid = some session)
    (hnd : (session.tasks.map Task.id).Nodup)
    (hps : ∀ t ∈ session.tasks, parseInt10 t.id ≠ JsNum.nan)
    (hpi : ∀ t ∈ input, parseInt10 t.id ≠ JsNum.nan) :
    ∃ ts c,
      updateTasks sid input store =
        (Except.ok ts,
         store.set sid
           { session_id := session.session_id, tasks := ts,
             next_task_id_counter := c }) ∧
      (∀ t, t ∈ ts ↔
        (lastById t.id input = some t ∨
         (lastById t.id input = none ∧ t ∈ session.tasks))) ∧
      ts.Pairwise (fun a b => keyed a ≤ keyed b) := by
  refine ⟨jsSortTasks ((input.foldl upsertOne session).tasks),
          (input.foldl upsertOne session).next_task_id_counter, ?_, ?_, ?_⟩
  · have hsid := upsertAll_session_id input session
    simp only [updateTasks, hs]
    rw [hsid]
  · intro t
    rw [(jsSortTasks_perm _).mem_iff]
    exact mem_upsertAll input session t hnd
  · exact pairwise_jsSortTasks _ (parses_upsertAll input session hnd hps hpi)

/-- A replacement entry for task id "1", used by the C1 witness. -/
def sampleTask1b : Task :=
  { id := "1", description := "y", status := Status.completed }

/-- Witness for C1: upserting entries with ids "9" (new, out of numeric order)
and "1" (replacing the stored task wholesale) into the sample session. -/
theorem claim_C1_witness :
    Store.get sampleStore "s" = some sampleSession ∧
    (sampleSession.tasks.map Task.id).Nodup ∧
    (∀ t ∈ sampleSession.tasks, parseInt10 t.id ≠ JsNum.nan) ∧
    (∀ t ∈ [sampleTask9, sampleTask1b], parseInt10 t.id ≠ JsNum.nan) ∧
    (∃ ts c,
      updateTasks "s" [sampleTask9, sampleTask1b] sampleStore =
        (Except.ok ts,
         Store.set sampleStore "s"
           { session_id := sampleSession.session_id, tasks := ts,
             next_task_id_counter := c }) ∧
      (∀ t, t ∈ ts ↔
        (lastById t.id [sampleTask9, sampleTask1b] = some t ∨
         (lastById t.id [sampleTask9, sampleTask1b] = none ∧
          t ∈ sampleSession.tasks))) ∧
      ts.Pairwise (fun a b => keyed a ≤ keyed b)) :=
  ⟨rfl, by decide, by decide, by decide,
   claim_C1_update_tasks "s" [sampleTask9, sampleTask1b] sampleStore sampleSession
     rfl (by decide) (by decide) (by decide)⟩

end Todo
